import Mathlib

/-!
Verification of the Nexus approval-interlock module
(src/nexus/app/mcp_server.py of the titan-grid repository).

Python strings are modelled as `List Char`; a Python `dict` of tool
arguments is an association list with primitive values (matching the
tool input schemas of the module).  The Redis store is an association
list from keys to (ttl, value) cells; every store operation and every
Executor/service call performed by `call_tool` is recorded in an
explicit effect trace.  External collaborators (the health service,
the event source, the LLM analysis, the ban backend, the token and
uuid generators) are supplied through an environment record, as the
spec treats them as black boxes.
-/

deriving instance DecidableEq for Except

namespace Nexus

/-- Double-quote character (written via its code point). -/
def qm : Char := Char.ofNat 34

/-- Backslash character. -/
def bs : Char := Char.ofNat 92

/-- Opening curly brace character. -/
def lb : Char := Char.ofNat 123

/-- Closing curly brace character. -/
def rb : Char := Char.ofNat 125

/-- Single-quote character. -/
def sq : Char := Char.ofNat 39

/-- ASCII decimal digit test (code points 48–57, i.e. `0`–`9`), as used
by the octet parsing of `ipaddress` (`isascii() and isdigit()`). -/
def isDigC (c : Char) : Bool := decide (48 ≤ c.toNat) && decide (c.toNat ≤ 57)

/-- Hexadecimal digit test (`_HEX_DIGITS` of `ipaddress`: the decimal
digits, `a`–`f` at 97–102 and `A`–`F` at 65–70). -/
def isHexC (c : Char) : Bool :=
  isDigC c || (decide (97 ≤ c.toNat) && decide (c.toNat ≤ 102)) ||
    (decide (65 ≤ c.toNat) && decide (c.toNat ≤ 70))

/-- Split a character list on a separator, mirroring Python `str.split(sep)`:
the empty string yields `[[]]`, and adjacent separators yield empty parts. -/
def splitOnC (sep : Char) : List Char → List (List Char)
  | [] => [[]]
  | c :: rest =>
    if c = sep then [] :: splitOnC sep rest
    else
      match splitOnC sep rest with
      | [] => [[c]]
      | p :: ps => (c :: p) :: ps

/-- Containment of a character in a character list (Python `c in s`). -/
def containsC (c : Char) (l : List Char) : Bool := l.any (fun d => d = c)

/-- Test that `p` is an initial segment of `l`. -/
def startsWith : List Char → List Char → Bool
  | [], _ => true
  | _ :: _, [] => false
  | p :: ps, c :: cs => (p = c : Bool) && startsWith ps cs

/-- Remove an initial segment, failing when it does not match. -/
def stripPre : List Char → List Char → Option (List Char)
  | [], l => some l
  | _ :: _, [] => none
  | p :: ps, c :: cs => if p = c then stripPre ps cs else none

/-- Split at the first occurrence of a separator, mirroring Python
`str.partition(sep)`: `none` when the separator does not occur. -/
def splitFirst (sep : Char) : List Char → Option (List Char × List Char)
  | [] => none
  | c :: rest =>
    if c = sep then some ([], rest)
    else (fun pr => (c :: pr.1, pr.2)) <$> splitFirst sep rest

/-- Fuel-driven worker for `removeAll`; the fuel only makes the
recursion structural and is always sufficient at the call site. -/
def removeAllAux : Nat → List Char → List Char → List Char
  | 0, _, l => l
  | _ + 1, _, [] => []
  | fuel + 1, pat, c :: rest =>
    if pat.isEmpty then c :: removeAllAux fuel pat rest
    else if startsWith pat (c :: rest) then
      removeAllAux fuel pat (rest.drop (pat.length - 1))
    else c :: removeAllAux fuel pat rest

/-- Remove every occurrence of a nonempty pattern, mirroring Python
`str.replace(pat, "")` (left-to-right scan; the empty pattern, which
Python treats specially, never occurs in this module). -/
def removeAll (pat l : List Char) : List Char := removeAllAux (l.length + 1) pat l

/-! ### IP literal validation

`validate_ip` of mcp_server.py calls `ipaddress.ip_address` on the
argument and reports whether it raised `ValueError`.  The definitions
below transcribe the validity conditions of the CPython `ipaddress`
string parsing (`IPv4Address._parse_octet`, `IPv6Address._ip_int_from_string`,
scope-id splitting); only validity is modelled, not the numeric value,
so the two hextets an embedded IPv4 suffix is converted into are
replaced by the valid placeholder hextet `0`. -/

/-- Numeric value of a decimal digit string. -/
def decVal (s : List Char) : Nat := s.foldl (fun a c => a * 10 + (c.toNat - 48)) 0

/-- Validity of one dotted-quad octet: nonempty, ASCII digits only, at
most three characters, no leading zero (except `0` itself), value at
most 255. -/
def octetOk (s : List Char) : Bool :=
  !s.isEmpty && s.all isDigC && decide (s.length ≤ 3) &&
  ((s == ['0']) || !(s.headD '0' = '0' : Bool)) &&
  decide (decVal s ≤ 255)

/-- Validity of an IPv4 literal: exactly four dot-separated valid octets. -/
def ipv4StrOk (s : List Char) : Bool :=
  match splitOnC '.' s with
  | [a, b, c, d] => octetOk a && octetOk b && octetOk c && octetOk d
  | _ => false

/-- Validity of one IPv6 hextet: nonempty, hex digits only, at most four
characters. -/
def hextetOk (s : List Char) : Bool :=
  !s.isEmpty && s.all isHexC && decide (s.length ≤ 4)

/-- Validity of the colon-separated part list of an IPv6 literal,
following the skip-index analysis of `IPv6Address._ip_int_from_string`:
at most one empty interior part (the `::`), empty endpoints only
adjacent to it, at least one skipped hextet, and every parsed part a
valid hextet. -/
def ipv6PartsOk (parts : List (List Char)) : Bool :=
  let n := parts.length
  if n < 3 then false
  else if 9 < n then false
  else
    match (List.range n).filter
        (fun i => decide (1 ≤ i) && decide (i ≤ n - 2) && (parts.getD i ['x']).isEmpty) with
    | [] =>
      (n == 8) && !(parts.getD 0 ['x']).isEmpty && !(parts.getD (n - 1) ['x']).isEmpty &&
      parts.all hextetOk
    | [s] =>
      let hi := if (parts.getD 0 ['x']).isEmpty then s - 1 else s
      let lo0 := n - s - 1
      let lo := if (parts.getD (n - 1) ['x']).isEmpty then lo0 - 1 else lo0
      (!(parts.getD 0 ['x']).isEmpty || (s == 1)) &&
      (!(parts.getD (n - 1) ['x']).isEmpty || (s == n - 2)) &&
      decide (hi + lo ≤ 7) &&
      (parts.take hi).all hextetOk && (parts.drop (n - lo)).all hextetOk
    | _ => false

/-- Validity of the address body of an IPv6 literal (scope id already
removed): an IPv4-style final part is converted as in CPython. -/
def ipv6CoreOk (s : List Char) : Bool :=
  if s.isEmpty then false
  else
    let parts := splitOnC ':' s
    if parts.length < 3 then false
    else
      match parts.getLast? with
      | none => false
      | some last =>
        if containsC '.' last then
          if ipv4StrOk last then ipv6PartsOk (parts.dropLast ++ [['0'], ['0']])
          else false
        else ipv6PartsOk parts

/-- Validity of an IPv6 literal with optional `%scope` suffix: the scope
id, when present, must be nonempty and must not contain a further `%`. -/
def ipv6StrOk (s : List Char) : Bool :=
  match splitFirst '%' s with
  | none => ipv6CoreOk s
  | some (pre, post) => !post.isEmpty && !containsC '%' post && ipv6CoreOk pre

/-- Validity of a textual IP literal as decided by
`ipaddress.ip_address` on a string: no `/`, then IPv4 or IPv6. -/
def ipLiteralOk (s : List Char) : Bool :=
  if containsC '/' s then false else ipv4StrOk s || ipv6StrOk s

/-! ### Data model

Tool arguments arrive as a JSON object; for the tools of this module
every argument value is a primitive (string, integer, boolean or
null), so an argument dict is an association list of primitives. -/

/-- Primitive Python/JSON value occurring as a tool-argument value. -/
inductive Prim where
  | pstr (s : List Char)
  | pint (n : Int)
  | pbool (b : Bool)
  | pnull
deriving DecidableEq

/-- An argument dict: insertion-ordered association list, keys distinct
(it models a Python dict). -/
abbrev Args := List (List Char × Prim)

/-- Python `dict.get(k)`: the value when present, else `None`. -/
def dictGet (args : Args) (k : List Char) : Prim :=
  match args.find? (fun kv => kv.1 = k) with
  | some kv => kv.2
  | none => Prim.pnull

/-- Python `dict.get(k, d)` with a default. -/
def dictGetD (args : Args) (k : List Char) (d : Prim) : Prim :=
  match args.find? (fun kv => kv.1 = k) with
  | some kv => kv.2
  | none => d

/-- The record `action_data` built by `call_tool` for a dangerous tool:
fields `name`, `arguments` and `timestamp` (the uuid4 audit string). -/
structure ActionData where
  name : List Char
  arguments : Args
  created : List Char
deriving DecidableEq

/-- `validate_ip` of mcp_server.py, lifted to the primitive values the
untyped call can receive.  A string goes through the literal parsing;
a Python `int` (and hence a `bool`, which is an `int` subclass) hits
the integer constructor branch of `ipaddress`, valid below `2^128`;
`None` is stringified to `"None"` by the constructor and fails to
parse. -/
def validate_ip (v : Prim) : Bool :=
  match v with
  | .pstr s => ipLiteralOk s
  | .pint n => decide (0 ≤ n) && decide (n < 2 ^ 128)
  | .pbool _ => true
  | .pnull => ipLiteralOk ("None".toList)

/-! ### Serialization (`json.dumps` with default options) -/

/-- Decimal digit character for `d < 10`. -/
def digCh (d : Nat) : Char := Char.ofNat (48 + d)

/-- Fuel-driven worker for `natDec`; the fuel only makes the recursion
structural and is always sufficient at the call site. -/
def natDecAux : Nat → Nat → List Char
  | 0, _ => []
  | fuel + 1, n => if n < 10 then [digCh n] else natDecAux fuel (n / 10) ++ [digCh (n % 10)]

/-- Decimal rendering of a natural number (Python `repr` of a
nonnegative int). -/
def natDec (n : Nat) : List Char := natDecAux (n + 1) n

/-- Decimal rendering of an integer. -/
def intDec (n : Int) : List Char :=
  if n < 0 then '-' :: natDec n.natAbs else natDec n.toNat

/-- Lowercase hexadecimal digit character for `d < 16`. -/
def hexDigCh (d : Nat) : Char :=
  if d < 10 then Char.ofNat (48 + d) else Char.ofNat (87 + d)

/-- Four lowercase hex digits (Python `"%04x"`), for `n < 2^16`. -/
def hex4 (n : Nat) : List Char :=
  [hexDigCh (n / 4096 % 16), hexDigCh (n / 256 % 16), hexDigCh (n / 16 % 16), hexDigCh (n % 16)]

/-- The `\uXXXX` escape of a code point, as a surrogate pair when it is
outside the basic plane. -/
def uEscape (n : Nat) : List Char :=
  if n < 65536 then bs :: 'u' :: hex4 n
  else bs :: 'u' :: hex4 (55296 + (n - 65536) / 1024) ++
    (bs :: 'u' :: hex4 (56320 + (n - 65536) % 1024))

/-- Escape of one character inside a JSON string, following
`json.encoder.py_encode_basestring_ascii`: short escapes for the
common control characters, a plain character in `0x20..0x7E` except the
quote and the backslash, and a `\uXXXX` escape otherwise. -/
def encodeChar (c : Char) : List Char :=
  if c = qm then [bs, qm]
  else if c = bs then [bs, bs]
  else if c = Char.ofNat 8 then [bs, 'b']
  else if c = Char.ofNat 9 then [bs, 't']
  else if c = Char.ofNat 10 then [bs, 'n']
  else if c = Char.ofNat 12 then [bs, 'f']
  else if c = Char.ofNat 13 then [bs, 'r']
  else if c.toNat < 32 ∨ 126 < c.toNat then uEscape c.toNat
  else [c]

/-- Escaped body of a JSON string. -/
def encodeStrContent (s : List Char) : List Char :=
  s.foldr (fun c acc => encodeChar c ++ acc) []

/-- A JSON string literal with its quotes. -/
def encodeStr (s : List Char) : List Char := qm :: encodeStrContent s ++ [qm]

/-- Serialization of a primitive value. -/
def dumpsPrim : Prim → List Char
  | .pstr s => encodeStr s
  | .pint n => intDec n
  | .pbool true => "true".toList
  | .pbool false => "false".toList
  | .pnull => "null".toList

/-- One `"key": value` member of an object. -/
def dumpsField (k : List Char) (v : Prim) : List Char :=
  encodeStr k ++ ':' :: ' ' :: dumpsPrim v

/-- The remaining members of an object, each preceded by the default
`json.dumps` item separator `", "`. -/
def dumpsFieldsTail : Args → List Char
  | [] => []
  | (k, v) :: fs => ',' :: ' ' :: (dumpsField k v ++ dumpsFieldsTail fs)

/-- Serialization of an argument dict. -/
def dumpsArgs : Args → List Char
  | [] => [lb, rb]
  | (k, v) :: fs => lb :: (dumpsField k v ++ dumpsFieldsTail fs) ++ [rb]

/-- The literal `"key": ` member introducer of a fixed all-ASCII key
(for such keys the JSON escaping is the identity, so this matches what
`json.dumps` emits for them). -/
def keyLit (k : List Char) : List Char := qm :: k ++ [qm, ':', ' ']

/-- Serialization of `action_data` by `json.dumps`: member order is the
dict insertion order `name`, `arguments`, `timestamp`. -/
def dumpsAction (a : ActionData) : List Char :=
  lb :: (keyLit ("name".toList) ++ encodeStr a.name ++
    ',' :: ' ' :: (keyLit ("arguments".toList) ++ dumpsArgs a.arguments ++
    ',' :: ' ' :: (keyLit ("timestamp".toList) ++ encodeStr a.created))) ++ [rb]

/-! ### Deserialization (`json.loads` followed by the field accesses)

The consumer side (`approve_action`, `list_pending_actions`) runs
`json.loads` on the stored payload and reads `action["name"]` and
`action["arguments"]`.  The functions below parse exactly the
serialized documents this system produces (the canonical member order
and the default separators of `dumpsAction`); a payload they reject is
one on which the Python code raises — either inside `json.loads` or at
the subsequent dict accesses — which `call_tool` does not catch. -/

/-- Numeric value of a hexadecimal digit character. -/
def hexVal (c : Char) : Option Nat :=
  if isDigC c then some (c.toNat - 48)
  else if decide (97 ≤ c.toNat) && decide (c.toNat ≤ 102) then some (c.toNat - 87)
  else if decide (65 ≤ c.toNat) && decide (c.toNat ≤ 70) then some (c.toNat - 55)
  else none

/-- Value of four hexadecimal digit characters. -/
def hex4Val (a b c d : Char) : Option Nat :=
  match hexVal a, hexVal b, hexVal c, hexVal d with
  | some x, some y, some z, some w => some (4096 * x + 256 * y + 16 * z + w)
  | _, _, _, _ => none

/-- Decoding of one escape sequence, positioned right after the
backslash: the decoded character and the remaining input.  Surrogate
pairs are combined (a lone surrogate, which the character type cannot
carry, is rejected). -/
def escDecode : List Char → Option (Char × List Char)
  | [] => none
  | e :: rest =>
    if e = qm then some (qm, rest)
    else if e = bs then some (bs, rest)
    else if e = '/' then some ('/', rest)
    else if e = 'b' then some (Char.ofNat 8, rest)
    else if e = 't' then some (Char.ofNat 9, rest)
    else if e = 'n' then some (Char.ofNat 10, rest)
    else if e = 'f' then some (Char.ofNat 12, rest)
    else if e = 'r' then some (Char.ofNat 13, rest)
    else if e = 'u' then
      match rest with
      | a :: b :: c2 :: d :: rest3 =>
        match hex4Val a b c2 d with
        | none => none
        | some n =>
          if 55296 ≤ n ∧ n < 56320 then
            match rest3 with
            | e2 :: u2 :: a2 :: b2 :: c3 :: d2 :: rest4 =>
              if e2 = bs ∧ u2 = 'u' then
                match hex4Val a2 b2 c3 d2 with
                | none => none
                | some m =>
                  if 56320 ≤ m ∧ m < 57344 then
                    some (Char.ofNat (65536 + (n - 55296) * 1024 + (m - 56320)), rest4)
                  else none
              else none
            | _ => none
          else if 56320 ≤ n ∧ n < 57344 then none
          else some (Char.ofNat n, rest3)
      | _ => none
    else none

/-- Body of a JSON string after its opening quote: unescape until the
closing quote.  The fuel only makes the recursion structural; every
step consumes at least one input character, so the fuel supplied by
`parseStrContent` never runs out. -/
def parseStrContentF : Nat → List Char → Option (List Char × List Char)
  | 0, _ => none
  | fuel + 1, l =>
    match l with
    | [] => none
    | c :: rest =>
      if c = qm then some ([], rest)
      else if c = bs then
        match escDecode rest with
        | none => none
        | some (ch, rest2) => (fun pr => (ch :: pr.1, pr.2)) <$> parseStrContentF fuel rest2
      else (fun pr => (c :: pr.1, pr.2)) <$> parseStrContentF fuel rest

/-- Body of a JSON string after its opening quote. -/
def parseStrContent (l : List Char) : Option (List Char × List Char) :=
  parseStrContentF (l.length + 1) l

/-- A JSON string literal including its opening quote. -/
def parseStr : List Char → Option (List Char × List Char)
  | [] => none
  | c :: rest => if c = qm then parseStrContent rest else none

/-- Greedy decimal digit run with an accumulator. -/
def parseDigitsAcc (acc : Nat) : List Char → Nat × List Char
  | [] => (acc, [])
  | c :: rest =>
    if isDigC c then parseDigitsAcc (acc * 10 + (c.toNat - 48)) rest else (acc, c :: rest)

/-- A primitive JSON value: string, integer, boolean or null (these are
the only value forms this system serializes, so floats are outside the
model). -/
def parsePrim : List Char → Option (Prim × List Char)
  | [] => none
  | c :: rest =>
    if c = qm then (fun pr => (Prim.pstr pr.1, pr.2)) <$> parseStrContent rest
    else if c = 't' then (fun l => (Prim.pbool true, l)) <$> stripPre ("rue".toList) rest
    else if c = 'f' then (fun l => (Prim.pbool false, l)) <$> stripPre ("alse".toList) rest
    else if c = 'n' then (fun l => (Prim.pnull, l)) <$> stripPre ("ull".toList) rest
    else if c = '-' then
      match rest with
      | d :: rest2 =>
        if isDigC d then
          let pr := parseDigitsAcc (d.toNat - 48) rest2
          some (Prim.pint (-(pr.1 : Int)), pr.2)
        else none
      | [] => none
    else if isDigC c then
      let pr := parseDigitsAcc (c.toNat - 48) rest
      some (Prim.pint ((pr.1 : Int)), pr.2)
    else none

/-- The members of a nonempty arguments object, starting after the
opening brace; consumes the closing brace. -/
def parseFields : Nat → List Char → Option (Args × List Char)
  | 0, _ => none
  | fuel + 1, l =>
    match parseStr l with
    | none => none
    | some (k, l1) =>
      match l1 with
      | c :: sp :: l2 =>
        if c = ':' ∧ sp = ' ' then
          match parsePrim l2 with
          | none => none
          | some (v, l3) =>
            match l3 with
            | c2 :: l4 =>
              if c2 = rb then some ([(k, v)], l4)
              else if c2 = ',' then
                match l4 with
                | sp2 :: l5 =>
                  if sp2 = ' ' then
                    (fun pr => ((k, v) :: pr.1, pr.2)) <$> parseFields fuel l5
                  else none
                | [] => none
              else none
            | [] => none
        else none
      | _ => none

/-- An arguments object including its braces. -/
def parseArgsObj (fuel : Nat) : List Char → Option (Args × List Char)
  | [] => none
  | c :: rest =>
    if c = lb then
      match rest with
      | d :: rest2 => if d = rb then some ([], rest2) else parseFields fuel (d :: rest2)
      | [] => none
    else none

/-- Deserialization of a stored payload: `json.loads` plus the
`action["name"]` / `action["arguments"]` accesses, on documents in the
canonical form this system writes. -/
def loadsAction (l : List Char) : Option ActionData :=
  match stripPre (lb :: keyLit ("name".toList)) l with
  | none => none
  | some l1 =>
    match parseStr l1 with
    | none => none
    | some (nm, l2) =>
      match stripPre (',' :: ' ' :: keyLit ("arguments".toList)) l2 with
      | none => none
      | some l3 =>
        match parseArgsObj (l3.length + 1) l3 with
        | none => none
        | some (args, l4) =>
          match stripPre (',' :: ' ' :: keyLit ("timestamp".toList)) l4 with
          | none => none
          | some l5 =>
            match parseStr l5 with
            | none => none
            | some (ts, l6) =>
              match l6 with
              | [c] => if c = rb then some ⟨nm, args, ts⟩ else none
              | _ => none

/-! ### The store, the effect trace and the environment -/

/-- One Redis cell: a key, the expiry set with it, and the string value
(`decode_responses=True` makes values strings). -/
structure Cell where
  key : List Char
  ttl : Nat
  val : List Char
deriving DecidableEq

/-- The durable key-value store. -/
abbrev Store := List Cell

/-- Redis `GET`. -/
def storeGet : Store → List Char → Option (List Char)
  | [], _ => none
  | c :: cs, k => if c.key = k then some c.val else storeGet cs k

/-- Redis `SETEX`: overwrite in place or append. -/
def storeSet : Store → List Char → Nat → List Char → Store
  | [], k, t, v => [⟨k, t, v⟩]
  | c :: cs, k, t, v => if c.key = k then ⟨k, t, v⟩ :: cs else c :: storeSet cs k t v

/-- Redis `DEL`: remove the key's cell. -/
def storeDel : Store → List Char → Store
  | [], _ => []
  | c :: cs, k => if c.key = k then storeDel cs k else c :: storeDel cs k

/-- Redis `KEYS pat*`: the keys extending the given base, in store
order (Redis guarantees no order; the model fixes cell order). -/
def storeKeysB (st : Store) (base : List Char) : List (List Char) :=
  (st.map Cell.key).filter (fun k => startsWith base k)

/-- An observable effect of one `call_tool` run: a store operation, the
entry into `execute_action` (the Action Executor), or a backing-service
call made by it. -/
inductive Eff where
  | setex (key : List Char) (ttl : Nat) (val : List Char)
  | get (key : List Char)
  | del (key : List Char)
  | keys (pat : List Char)
  | execEnter (name : List Char)
  | svcHealth
  | svcEvents (limit : Prim)
  | svcAnalyze
  | svcBan (ip : Prim) (hours : Prim)
deriving DecidableEq

/-- Whether an effect touches the store. -/
def Eff.isStore : Eff → Bool
  | .setex _ _ _ => true
  | .get _ => true
  | .del _ => true
  | .keys _ => true
  | _ => false

/-- Whether an effect writes the store. -/
def Eff.isWrite : Eff → Bool
  | .setex _ _ _ => true
  | .del _ => true
  | _ => false

/-- Whether an effect is a backing-service call (an underlying action
actually running). -/
def Eff.isSvc : Eff → Bool
  | .svcHealth => true
  | .svcEvents _ => true
  | .svcAnalyze => true
  | .svcBan _ _ => true
  | _ => false

/-- The external collaborators of one `call_tool` run.  `token` is the
`secrets.token_hex(4)` draw and `uuidStr` the `str(uuid.uuid4())` audit
stamp.  Each service field is the outcome of the corresponding awaited
call should the run reach it: `Except.error e` models the call raising
an exception rendered `e` by `str` (for the ban branch this includes a
failure of the `hours * 3600` evaluation), `Except.ok` carries the
returned text — for the health and event tools, already through the
`json.dumps(… , indent=2)` rendering of their out-of-scope payloads. -/
structure Env where
  token : List Char
  uuidStr : List Char
  health : Except (List Char) (List Char)
  events : Except (List Char) (List (List Char))
  eventsDump : List Char
  analysis : Except (List Char) (List Char)
  ban : Except (List Char) (List Char)

/-! ### Tool names and message texts -/

/-- Key of the approval interlock namespace (`APPROVAL_PREFIX` in the
source; renamed here, the behaviour is byte-identical). -/
def approvalKeyBase : List Char := "nexus:approval:".toList

/-- The TTL passed to `SETEX` (one hour). -/
def APPROVAL_TTL : Nat := 3600

/-- Tool name of the ban operation. -/
def banToolName : List Char := "ban_suspicious_ip".toList

/-- The static dangerous-operation set. -/
def DANGEROUS_TOOLS : List (List Char) := [banToolName]

/-- Tool name of the approval meta-operation. -/
def approveToolName : List Char := "approve_action".toList

/-- Tool name of the pending-list meta-operation. -/
def listPendingToolName : List Char := "list_pending_actions".toList

/-- Tool name of the health aggregation. -/
def healthToolName : List Char := "check_system_health".toList

/-- Tool name of the event retrieval. -/
def eventsToolName : List Char := "get_security_events".toList

/-- Tool name of the AI analysis. -/
def analyzeToolName : List Char := "analyze_attack_patterns".toList

/-- Python `str` of a primitive, as interpolated by an f-string. -/
def pyStr : Prim → List Char
  | .pstr s => s
  | .pint n => intDec n
  | .pbool true => "True".toList
  | .pbool false => "False".toList
  | .pnull => "None".toList

/-- The validation-failure message, naming the offending value. -/
def valErrText (v : Prim) : List Char :=
  "Error: ".toList ++ sq :: (pyStr v ++ sq :: " is not a valid IP address.".toList)

/-- The interlock notice returned by a dangerous submission. -/
def pendingText (name : List Char) (args : Args) (token : List Char) : List Char :=
  "⚠️ SAFETY INTERLOCK TRIGGERED\nAction: ".toList ++ name ++
  "\nArguments: ".toList ++ dumpsArgs args ++
  "\nStatus: PENDING APPROVAL\n\nTo execute this command, call ".toList ++
  sq :: ("approve_action".toList ++ sq :: " with:\ntoken: ".toList) ++ token

/-- The single generic invalid-token message. -/
def invalidTokText : List Char := "Error: Invalid, expired, or already used token.".toList

/-- The empty pending-list message. -/
def noPendingText : List Char := "No actions pending approval.".toList

/-- The catch-all rendering of an exception inside `execute_action`. -/
def sysErrText (e : List Char) : List Char := "System Error: ".toList ++ e

/-- The message of the `ValueError` raised for an unregistered name. -/
def unknownToolText (name : List Char) : List Char := "Unknown tool: ".toList ++ name

/-- The empty-event-store message of the analysis branch. -/
def noEventsText : List Char := "No suspicious activities found to analyze.".toList

/-! ### The Action Executor (`execute_action`) -/

/-- The dispatch table of `execute_action`: one text result plus the
trace of the Executor entry and of the service calls it performed.
Its `try` / `except` converts any exception into the `System Error`
text, and the default branch raises (and hence reports) `Unknown
tool`. -/
def execute_action (env : Env) (name : List Char) (arguments : Args) :
    List (List Char) × List Eff :=
  if name = healthToolName then
    match env.health with
    | .ok t => ([t], [.execEnter name, .svcHealth])
    | .error e => ([sysErrText e], [.execEnter name, .svcHealth])
  else if name = eventsToolName then
    let limit := dictGetD arguments ("limit".toList) (.pint 10)
    match env.events with
    | .ok _ => ([env.eventsDump], [.execEnter name, .svcEvents limit])
    | .error e => ([sysErrText e], [.execEnter name, .svcEvents limit])
  else if name = analyzeToolName then
    let limit := dictGetD arguments ("limit".toList) (.pint 10)
    match env.events with
    | .error e => ([sysErrText e], [.execEnter name, .svcEvents limit])
    | .ok evs =>
      if evs.isEmpty then ([noEventsText], [.execEnter name, .svcEvents limit])
      else
        match env.analysis with
        | .ok t => ([t], [.execEnter name, .svcEvents limit, .svcAnalyze])
        | .error e => ([sysErrText e], [.execEnter name, .svcEvents limit, .svcAnalyze])
  else if name = banToolName then
    let ip := dictGet arguments ("ip".toList)
    let hours := dictGetD arguments ("hours".toList) (.pint 1)
    match env.ban with
    | .ok t => ([t], [.execEnter name, .svcBan ip hours])
    | .error e => ([sysErrText e], [.execEnter name, .svcBan ip hours])
  else
    ([sysErrText (unknownToolText name)], [.execEnter name])

/-! ### The pending-list rendering (`json.dumps(actions, indent=2)`) -/

/-- A newline plus the two-space indentation of a nesting level. -/
def nlInd (lvl : Nat) : List Char := Char.ofNat 10 :: List.replicate (2 * lvl) ' '

/-- Members after the first of an indented object. -/
def renderFieldsInd (lvl : Nat) : Args → List Char
  | [] => []
  | (k, v) :: rest =>
    ',' :: (nlInd lvl ++ encodeStr k ++ ':' :: ' ' :: dumpsPrim v ++ renderFieldsInd lvl rest)

/-- An argument dict, indented. -/
def renderArgsInd (lvl : Nat) : Args → List Char
  | [] => [lb, rb]
  | (k, v) :: rest =>
    lb :: (nlInd (lvl + 1) ++ encodeStr k ++ ':' :: ' ' :: dumpsPrim v ++
      renderFieldsInd (lvl + 1) rest ++ nlInd lvl) ++ [rb]

/-- A deserialized pending action, indented. -/
def renderActionInd (lvl : Nat) (a : ActionData) : List Char :=
  lb :: (nlInd (lvl + 1) ++ encodeStr ("name".toList) ++ ':' :: ' ' :: encodeStr a.name ++
    ',' :: nlInd (lvl + 1) ++ encodeStr ("arguments".toList) ++ ':' :: ' ' ::
      renderArgsInd (lvl + 1) a.arguments ++
    ',' :: nlInd (lvl + 1) ++ encodeStr ("timestamp".toList) ++ ':' :: ' ' :: encodeStr a.created ++
    nlInd lvl) ++ [rb]

/-- Entries after the first of the top-level token map. -/
def renderPendingTail : List (List Char × ActionData) → List Char
  | [] => []
  | (tok, a) :: rest =>
    ',' :: (nlInd 1 ++ encodeStr tok ++ ':' :: ' ' :: renderActionInd 1 a ++ renderPendingTail rest)

/-- The token map of `list_pending_actions`, rendered like
`json.dumps(actions, indent=2)`. -/
def renderPending : List (List Char × ActionData) → List Char
  | [] => [lb, rb]
  | (tok, a) :: rest =>
    lb :: (nlInd 1 ++ encodeStr tok ++ ':' :: ' ' :: renderActionInd 1 a ++
      renderPendingTail rest ++ nlInd 0) ++ [rb]

/-- Insert-or-overwrite of a Python dict assignment: the first
occurrence keeps its position, its value is replaced. -/
def upsert (m : List (List Char × ActionData)) (k : List Char) (v : ActionData) :
    List (List Char × ActionData) :=
  match m with
  | [] => [(k, v)]
  | (k2, v2) :: rest => if k2 = k then (k2, v) :: rest else (k2, v2) :: upsert rest k v

/-- The token-to-action dict built by the `list_pending_actions` loop:
for each enumerated key, the token is the key with every occurrence of
the namespace string removed (Python `str.replace`), and the value is
the deserialized payload.  The first failing entry aborts the whole
loop with an uncaught exception: a vanished key makes `json.loads`
receive `None` (a `TypeError`), an undeserializable value makes it
raise a decode error.  The `Except.error` payloads are markers naming
the exception kind; their exact Python rendering never reaches the
caller through `call_tool`, which has no handler. -/
def buildPending (st : Store) (acc : List (List Char × ActionData)) :
    List (List Char) → Except (List Char) (List (List Char × ActionData))
  | [] => .ok acc
  | k :: ks =>
    match storeGet st k with
    | none => .error ("TypeError: json.loads received None".toList)
    | some v =>
      match loadsAction v with
      | none => .error ("JSONDecodeError in json.loads".toList)
      | some a => buildPending st (upsert acc (removeAll approvalKeyBase k) a) ks

/-! ### The tool-dispatch boundary (`call_tool`) -/

/-- One run of `call_tool` of mcp_server.py over an explicit store.
The first component is the returned text list, or `Except.error` when
the run raises an uncaught exception (only possible at the `json.loads`
call sites); the second is the store it leaves behind; the third the
effect trace.  The transcription follows the four numbered sections of
the source: the IP validation gate, the dangerous-tool interlock, the
approval and listing meta-operations, and the safe-tool fallthrough to
the Executor. -/
def call_tool (env : Env) (st : Store) (name : List Char) (arguments : Args) :
    Except (List Char) (List (List Char)) × Store × List Eff :=
  if name = banToolName ∧ validate_ip (dictGet arguments ("ip".toList)) = false then
    (.ok [valErrText (dictGet arguments ("ip".toList))], st, [])
  else if name ∈ DANGEROUS_TOOLS then
    let key := approvalKeyBase ++ env.token
    let payload := dumpsAction ⟨name, arguments, env.uuidStr⟩
    (.ok [pendingText name arguments env.token],
     storeSet st key APPROVAL_TTL payload,
     [.setex key APPROVAL_TTL payload])
  else if name = approveToolName then
    let key := approvalKeyBase ++ pyStr (dictGet arguments ("token".toList))
    match storeGet st key with
    | none => (.ok [invalidTokText], st, [.get key])
    | some raw =>
      if raw.isEmpty then (.ok [invalidTokText], st, [.get key])
      else
        match loadsAction raw with
        | none => (.error ("JSONDecodeError in json.loads".toList), st, [.get key])
        | some action =>
          let pr := execute_action env action.name action.arguments
          (.ok pr.1, storeDel st key, .get key :: .del key :: pr.2)
  else if name = listPendingToolName then
    let ks := storeKeysB st approvalKeyBase
    if ks.isEmpty then (.ok [noPendingText], st, [.keys (approvalKeyBase ++ ['*'])])
    else
      match buildPending st [] ks with
      | .ok entries =>
        (.ok [renderPending entries], st, .keys (approvalKeyBase ++ ['*']) :: ks.map Eff.get)
      | .error e => (.error e, st, .keys (approvalKeyBase ++ ['*']) :: ks.map Eff.get)
  else
    let pr := execute_action env name arguments
    (.ok pr.1, st, pr.2)

/-! ### Interleaving model of racing `approve` calls

The approve branch performs two store operations — the `GET` and the
`DEL` — with only pure computation between them; under the concurrency
model of the spec these are its suspension points.  A racing approver
is therefore a two-step task: fetch the contested cell, then (when the
fetch was truthy) delete the key — ignoring, as the source does, the
count `DEL` reports — and invoke the Executor.  The shared state is
the contested key's cell. -/

/-- Final outcome of one racing approver. -/
inductive AOut where
  | invalid
  | executed (removed : Bool)
deriving DecidableEq

/-- Program counter of one racing approver. -/
inductive ASt where
  | start
  | fetched (raw : Option (List Char))
  | done (out : AOut)
deriving DecidableEq

/-- The race system: the contested cell and the approver tasks. -/
structure RaceSys where
  cell : Option (List Char)
  tasks : List ASt
deriving DecidableEq

/-- Advance task `i` by one step of the approve branch. -/
def raceStep (sys : RaceSys) (i : Nat) : RaceSys :=
  match sys.tasks.getD i (.done .invalid) with
  | .start => { sys with tasks := sys.tasks.set i (.fetched sys.cell) }
  | .fetched none => { sys with tasks := sys.tasks.set i (.done .invalid) }
  | .fetched (some _) =>
    { cell := none, tasks := sys.tasks.set i (.done (.executed sys.cell.isSome)) }
  | .done _ => sys

/-- Run a schedule (a list of task indices). -/
def raceRun (sched : List Nat) (sys : RaceSys) : RaceSys :=
  sched.foldl raceStep sys

/-- Count the approvers that reached the Executor. -/
def countExecuted (sys : RaceSys) : Nat :=
  sys.tasks.countP (fun t =>
    match t with
    | .done (.executed _) => true
    | _ => false)

/-- Count the approvers that returned the invalid-token message. -/
def countInvalid (sys : RaceSys) : Nat :=
  sys.tasks.countP (fun t => t = .done .invalid)

/-! ### Derived notions and concrete fixtures used by the statements -/

/-- Whether a character list does not begin with a decimal digit (the
context after a serialized integer, so that the greedy digit run stops
exactly at its end). -/
def headNotDig : List Char → Bool
  | [] => true
  | c :: _ => !isDigC c

/-- The store key the approve branch looks up for a given argument
dict: the namespace base followed by the f-string rendering of the
`token` argument. -/
def approveKey (args : Args) : List Char :=
  approvalKeyBase ++ pyStr (dictGet args ("token".toList))

/-- The six operation names declared by `list_tools` — the Action
Registry of the spec. -/
def registeredToolNames : List (List Char) :=
  [healthToolName, eventsToolName, analyzeToolName, banToolName,
   approveToolName, listPendingToolName]

/-- The registered names classified safe and backed by the Executor:
every registered operation except the dangerous one and the two
interlock meta-operations (which dispatch into the interlock itself,
not into the Executor). -/
def safeToolNames : List (List Char) :=
  [healthToolName, eventsToolName, analyzeToolName]

/-- A concrete environment used by counterexamples and witnesses. -/
def probeEnv : Env :=
  { token := "0badc0de".toList
    uuidStr := "uuid-w".toList
    health := .ok ("HEALTH".toList)
    events := .ok []
    eventsDump := "EVENTS".toList
    analysis := .ok ("ANALYSIS".toList)
    ban := .ok ("IP 1.2.3.4 has been banned for 3600 seconds.".toList) }

/-- Concrete ban arguments used by witnesses. -/
def wArgs : Args :=
  [("ip".toList, Prim.pstr ("1.2.3.4".toList)), ("hours".toList, Prim.pint 1)]

/-- The pending action those arguments produce under `probeEnv`. -/
def wAction : ActionData := ⟨banToolName, wArgs, "uuid-w".toList⟩

/-- Its serialized payload. -/
def wPayload : List Char := dumpsAction wAction

/-- The store key `probeEnv.token` yields. -/
def wKey : List Char := approvalKeyBase ++ "0badc0de".toList

/-- Approve arguments presenting that token. -/
def wTokArgs : Args := [("token".toList, Prim.pstr ("0badc0de".toList))]

/-- A store holding one valid pending entry and one entry whose value
is not deserializable. -/
def c9Store : Store :=
  [⟨approvalKeyBase ++ "aaaa0000".toList, 3600,
      dumpsAction ⟨banToolName, [("ip".toList, Prim.pstr ("9.9.9.9".toList))], "u9".toList⟩⟩,
   ⟨approvalKeyBase ++ "bbbb1111".toList, 3600, "not json".toList⟩]

/-- A store holding the single pending entry of `wAction` under `wKey`. -/
def wStore : Store := [⟨wKey, 3600, wPayload⟩]

/-- A store holding only the valid pending entry of `c9Store`. -/
def c9GoodStore : Store :=
  [⟨approvalKeyBase ++ "aaaa0000".toList, 3600,
      dumpsAction ⟨banToolName, [("ip".toList, Prim.pstr ("9.9.9.9".toList))], "u9".toList⟩⟩]

/-- An environment whose ban backend raises. -/
def failEnv : Env := { probeEnv with ban := .error ("ConnectionError: Aegis unreachable".toList) }

/-- The `ip` argument as the validation gate reads it. -/
def ipArg (args : Args) : Prim := dictGet args ("ip".toList)

/-- Lookup of the raw `ip` entry (to state that the key is absent). -/
def findIp (args : Args) : Option (List Char × Prim) :=
  args.find? (fun kv => kv.1 = "ip".toList)

/-- Ban arguments with a malformed IP literal. -/
def badIpArgs : Args := [("ip".toList, Prim.pstr ("not-an-ip".toList))]

/-- Ban arguments with no `ip` key at all. -/
def noIpArgs : Args := [("hours".toList, Prim.pint 2)]

/-- The entry list `list_pending_actions` builds from `c9GoodStore`. -/
def c9Entries : List (List Char × ActionData) :=
  [("aaaa0000".toList,
    ⟨banToolName, [("ip".toList, Prim.pstr ("9.9.9.9".toList))], "u9".toList⟩)]

set_option maxRecDepth 40000

/-! ## Store lemmas -/

/-- A `SETEX` makes its key readable with the written value. -/
theorem storeGet_set_self (st : Store) (k : List Char) (t : Nat) (v : List Char) :
    storeGet (storeSet st k t v) k = some v := by
  induction st with
  | nil => simp [storeSet, storeGet]
  | cons c cs ih =>
    by_cases h : c.key = k
    · simp [storeSet, storeGet, h]
    · simp [storeSet, storeGet, h, ih]

/-- A `SETEX` leaves every other key unchanged. -/
theorem storeGet_set_ne (st : Store) (k k' : List Char) (t : Nat) (v : List Char)
    (h : k' ≠ k) : storeGet (storeSet st k t v) k' = storeGet st k' := by
  have hkk : ¬ k = k' := fun he => h he.symm
  induction st with
  | nil => simp [storeSet, storeGet, hkk]
  | cons c cs ih =>
    by_cases hc : c.key = k
    · simp [storeSet, storeGet, hc, hkk]
    · simp [storeSet, storeGet, hc, ih]

/-- A `DEL` removes its key. -/
theorem storeGet_del_self (st : Store) (k : List Char) :
    storeGet (storeDel st k) k = none := by
  induction st with
  | nil => simp [storeDel, storeGet]
  | cons c cs ih =>
    by_cases h : c.key = k
    · simpa [storeDel, h] using ih
    · simpa [storeDel, storeGet, h] using ih

/-- A `DEL` leaves every other key unchanged. -/
theorem storeGet_del_ne (st : Store) (k k' : List Char) (h : k' ≠ k) :
    storeGet (storeDel st k) k' = storeGet st k' := by
  have hkk : ¬ k = k' := fun he => h he.symm
  induction st with
  | nil => simp [storeDel]
  | cons c cs ih =>
    by_cases hc : c.key = k
    · simp [storeDel, storeGet, hc, hkk, ih]
    · simp [storeDel, storeGet, hc, ih]

/-! ## Behaviour of the approve branch -/

/-- Approving a token whose key is absent returns the generic
invalid-token message, leaves the store untouched and performs only
the lookup. -/
theorem approve_absent (env : Env) (st : Store) (args : Args)
    (h : storeGet st (approveKey args) = none) :
    call_tool env st approveToolName args =
      (.ok [invalidTokText], st, [.get (approveKey args)]) := by
  have h' := h
  simp +decide [approveKey] at h'
  simp +decide [call_tool, approveKey, DANGEROUS_TOOLS, h']

/-- Approving a token whose key holds a nonempty deserializable payload
deletes the key and hands the stored action to the Executor. -/
theorem approve_present (env : Env) (st : Store) (args : Args) (raw : List Char)
    (action : ActionData) (h1 : storeGet st (approveKey args) = some raw)
    (h2 : raw ≠ []) (h3 : loadsAction raw = some action) :
    call_tool env st approveToolName args =
      (.ok (execute_action env action.name action.arguments).1,
       storeDel st (approveKey args),
       .get (approveKey args) :: .del (approveKey args) ::
         (execute_action env action.name action.arguments).2) := by
  have h1' := h1
  simp +decide [approveKey] at h1'
  simp +decide [call_tool, approveKey, DANGEROUS_TOOLS, h1', h2, h3]

/-- A ban submission whose `ip` argument fails validation returns the
validation message naming the value, with no store access and no
Executor contact. -/
theorem ban_validation_fail (env : Env) (st : Store) (args : Args)
    (h : validate_ip (ipArg args) = false) :
    call_tool env st banToolName args = (.ok [valErrText (ipArg args)], st, []) := by
  have h' := h
  simp +decide [ipArg] at h'
  simp +decide [call_tool, ipArg, h']

/-! ## Claim theorems -/

/-- C1 — the claim that among N concurrent `approve(t)` calls exactly
one returns Executed and the rest InvalidToken fails on the code: the
approve branch reads with `GET`, then deletes ignoring the count `DEL`
reports, so under the interleaving fetch-fetch-delete-delete both of
two racing approvers reach the Executor (`countExecuted = 2`, no
InvalidToken outcome), and the second does so although its delete
removed nothing — the atomic delete is not used as a serialization
point.  This contradicts both the spec and the source's own `# Atomic
consumption` comment. -/
theorem approve_race_double_execution :
    countExecuted (raceRun [0, 1, 0, 1] ⟨some wPayload, [.start, .start]⟩) = 2 ∧
    countInvalid (raceRun [0, 1, 0, 1] ⟨some wPayload, [.start, .start]⟩) = 0 ∧
    (raceRun [0, 1, 0, 1] ⟨some wPayload, [.start, .start]⟩).tasks.getD 1 (.done .invalid) =
      .done (.executed false) := by decide

/-- C2 — a dangerous submission whose arguments pass validation has as
its only effect one `SETEX` of the serialized pending action under the
prefixed fresh token with the 3600 s TTL; no service (in particular no
ban) runs, and every other store key reads unchanged. -/
theorem submit_dangerous_only_writes (env : Env) (st : Store) (args : Args)
    (h : validate_ip (ipArg args) = true) :
    call_tool env st banToolName args =
      (.ok [pendingText banToolName args env.token],
       storeSet st (approvalKeyBase ++ env.token) APPROVAL_TTL
         (dumpsAction ⟨banToolName, args, env.uuidStr⟩),
       [.setex (approvalKeyBase ++ env.token) APPROVAL_TTL
          (dumpsAction ⟨banToolName, args, env.uuidStr⟩)]) ∧
    (∀ k, k ≠ approvalKeyBase ++ env.token →
       storeGet (call_tool env st banToolName args).2.1 k = storeGet st k) ∧
    (call_tool env st banToolName args).2.2.all (fun e => !e.isSvc) = true := by
  have h' := h
  simp +decide [ipArg] at h'
  have hmain : call_tool env st banToolName args =
      (.ok [pendingText banToolName args env.token],
       storeSet st (approvalKeyBase ++ env.token) APPROVAL_TTL
         (dumpsAction ⟨banToolName, args, env.uuidStr⟩),
       [.setex (approvalKeyBase ++ env.token) APPROVAL_TTL
          (dumpsAction ⟨banToolName, args, env.uuidStr⟩)]) := by
    simp +decide [call_tool, DANGEROUS_TOOLS, h']
  refine ⟨hmain, fun k hk => ?_, ?_⟩
  · rw [hmain]
    exact storeGet_set_ne st _ k APPROVAL_TTL _ hk
  · rw [hmain]
    simp [Eff.isSvc]

/-- C2 witness at concrete inputs. -/
theorem submit_dangerous_only_writes_witness :
    validate_ip (ipArg wArgs) = true ∧
    call_tool probeEnv [] banToolName wArgs =
      (.ok [pendingText banToolName wArgs probeEnv.token],
       storeSet [] (approvalKeyBase ++ probeEnv.token) APPROVAL_TTL
         (dumpsAction ⟨banToolName, wArgs, probeEnv.uuidStr⟩),
       [.setex (approvalKeyBase ++ probeEnv.token) APPROVAL_TTL
          (dumpsAction ⟨banToolName, wArgs, probeEnv.uuidStr⟩)]) :=
  ⟨by decide, (submit_dangerous_only_writes probeEnv [] wArgs (by decide)).1⟩

/-- C3 — approving an absent token returns the single generic message,
leaves the store as it was (so repetition gives the identical result,
whatever fresh environment the repeat draws), and a token consumed by
a successful approve is absent afterwards, so its re-approval returns
the same InvalidToken outcome. -/
theorem approve_invalid_token_idempotent (env env' : Env) (st : Store) (args : Args) :
    (storeGet st (approveKey args) = none →
       call_tool env st approveToolName args =
         (.ok [invalidTokText], st, [.get (approveKey args)])) ∧
    (storeGet st (approveKey args) = none →
       call_tool env' st approveToolName args = call_tool env st approveToolName args) ∧
    (∀ raw action, storeGet st (approveKey args) = some raw → raw ≠ [] →
       loadsAction raw = some action →
       call_tool env' (call_tool env st approveToolName args).2.1 approveToolName args =
         (.ok [invalidTokText], (call_tool env st approveToolName args).2.1,
          [.get (approveKey args)])) := by
  refine ⟨fun h => approve_absent env st args h,
    fun h => by rw [approve_absent env st args h, approve_absent env' st args h],
    fun raw action h1 h2 h3 => ?_⟩
  have hm := approve_present env st args raw action h1 h2 h3
  rw [hm]
  exact approve_absent env' _ args (storeGet_del_self st (approveKey args))

/-- C3 witness: consuming the concrete pending entry and approving the
same token again yields InvalidToken. -/
theorem approve_invalid_token_idempotent_witness :
    storeGet wStore (approveKey wTokArgs) = some wPayload ∧
    call_tool probeEnv (call_tool probeEnv wStore approveToolName wTokArgs).2.1
        approveToolName wTokArgs =
      (.ok [invalidTokText], (call_tool probeEnv wStore approveToolName wTokArgs).2.1,
       [.get (approveKey wTokArgs)]) :=
  ⟨by decide,
   (approve_invalid_token_idempotent probeEnv probeEnv wStore wTokArgs).2.2 wPayload wAction
     (by decide) (by decide) (by decide)⟩

/-- C4 — once the approve branch has found and deserialized a pending
action, the key is deleted whatever the Executor outcome: the new
store is exactly the old one without the key, a subsequent approve of
the same token returns InvalidToken, and an Executor failure is
surfaced as the execution-error text while the action stays consumed. -/
theorem consumption_final (env : Env) (st : Store) (args : Args) (raw : List Char)
    (action : ActionData) (h1 : storeGet st (approveKey args) = some raw)
    (h2 : raw ≠ []) (h3 : loadsAction raw = some action) :
    (call_tool env st approveToolName args).2.1 = storeDel st (approveKey args) ∧
    storeGet (call_tool env st approveToolName args).2.1 (approveKey args) = none ∧
    (∀ env', call_tool env' (call_tool env st approveToolName args).2.1 approveToolName args =
       (.ok [invalidTokText], (call_tool env st approveToolName args).2.1,
        [.get (approveKey args)])) ∧
    (∀ e, action.name = banToolName → env.ban = .error e →
       (call_tool env st approveToolName args).1 = .ok [sysErrText e]) := by
  have hm := approve_present env st args raw action h1 h2 h3
  refine ⟨by rw [hm], by rw [hm]; exact storeGet_del_self st _, fun env' => ?_, fun e hn hb => ?_⟩
  · rw [hm]
    exact approve_absent env' _ args (storeGet_del_self st _)
  · rw [hm, hn]
    simp +decide [execute_action, hb]

/-- C4 witness: with a failing ban backend the concrete approve returns
the execution-error text and the token is gone. -/
theorem consumption_final_witness :
    storeGet wStore (approveKey wTokArgs) = some wPayload ∧
    loadsAction wPayload = some wAction ∧
    (call_tool failEnv wStore approveToolName wTokArgs).1 =
      .ok [sysErrText ("ConnectionError: Aegis unreachable".toList)] ∧
    storeGet (call_tool failEnv wStore approveToolName wTokArgs).2.1 (approveKey wTokArgs) =
      none :=
  ⟨by decide, by decide,
   (consumption_final failEnv wStore wTokArgs wPayload wAction (by decide) (by decide)
       (by decide)).2.2.2 ("ConnectionError: Aegis unreachable".toList) (by decide) (by decide),
   (consumption_final failEnv wStore wTokArgs wPayload wAction (by decide) (by decide)
       (by decide)).2.1⟩

/-- C5 — a ban submission whose `ip` value fails the literal validation
returns the validation error naming the offending value, creates no
pending entry and performs no store operation at all. -/
theorem validation_gate (env : Env) (st : Store) (args : Args)
    (h : validate_ip (ipArg args) = false) :
    call_tool env st banToolName args = (.ok [valErrText (ipArg args)], st, []) :=
  ban_validation_fail env st args h

/-- C5 witness at the spec's concrete input. -/
theorem validation_gate_witness :
    validate_ip (ipArg badIpArgs) = false ∧
    call_tool probeEnv [] banToolName badIpArgs =
      (.ok [valErrText (ipArg badIpArgs)], [], []) :=
  ⟨by decide, validation_gate probeEnv [] badIpArgs (by decide)⟩

/-- C6 (amended) — an unregistered operation name is dispatched to the
Executor, whose default branch raises `Unknown tool` and whose handler
surfaces it as the System Error text; the store is never contacted and
no backing service runs, but the rejection happens inside the Executor
rather than before dispatch. -/
theorem unknown_op_via_executor (env : Env) (st : Store) (name : List Char) (args : Args)
    (h : ¬ name ∈ registeredToolNames) :
    call_tool env st name args =
      (.ok [sysErrText (unknownToolText name)], st, [.execEnter name]) ∧
    (Eff.execEnter name).isStore = false ∧ (Eff.execEnter name).isSvc = false := by
  simp +decide [registeredToolNames] at h
  obtain ⟨h1, h2, h3, h4, h5, h6⟩ := h
  refine ⟨?_, rfl, rfl⟩
  simp +decide [call_tool, execute_action, DANGEROUS_TOOLS, h1, h2, h3, h4, h5, h6]

/-- C6 counterexample — the claim that the Executor is not contacted is
false: for `delete_universe` the trace is exactly the Executor entry,
and the surfaced outcome is the Executor's System Error rendering, not
a pre-dispatch rejection. -/
theorem unknown_op_counterexample :
    (call_tool probeEnv [] ("delete_universe".toList) []).2.2 =
      [Eff.execEnter ("delete_universe".toList)] ∧
    (call_tool probeEnv [] ("delete_universe".toList) []).1 =
      .ok [sysErrText (unknownToolText ("delete_universe".toList))] := by decide

/-- C6 witness for the amended statement. -/
theorem unknown_op_via_executor_witness :
    ¬ ("purge_everything".toList) ∈ registeredToolNames ∧
    call_tool probeEnv [] ("purge_everything".toList) [] =
      (.ok [sysErrText (unknownToolText ("purge_everything".toList))], [],
       [.execEnter ("purge_everything".toList)]) :=
  ⟨by decide, (unknown_op_via_executor probeEnv [] ("purge_everything".toList) [] (by decide)).1⟩

/-- C7 — every safe-classified tool (`check_system_health`,
`get_security_events`, `analyze_attack_patterns`) delegates directly
to the Executor and returns its result unchanged; no token is
generated and the store is not read or written (the trace holds no
store effect and the store value is the input store). -/
theorem safe_path_bypass (env : Env) (st : Store) (name : List Char) (args : Args)
    (h : name ∈ safeToolNames) :
    call_tool env st name args =
      (.ok (execute_action env name args).1, st, (execute_action env name args).2) ∧
    (execute_action env name args).2.all (fun e => !e.isStore) = true := by
  have h' : name = healthToolName ∨ name = eventsToolName ∨ name = analyzeToolName := by
    simpa [safeToolNames] using h
  rcases h' with rfl | rfl | rfl
  · constructor
    · simp +decide [call_tool, DANGEROUS_TOOLS]
    · cases hh : env.health <;> simp [execute_action, hh, Eff.isStore]
  · constructor
    · simp +decide [call_tool, DANGEROUS_TOOLS]
    · cases hh : env.events <;> simp +decide [execute_action, hh, Eff.isStore]
  · constructor
    · simp +decide [call_tool, DANGEROUS_TOOLS]
    · cases hh : env.events with
      | error e => simp +decide [execute_action, hh, Eff.isStore]
      | ok evs =>
        by_cases he : evs.isEmpty <;> cases ha : env.analysis <;>
          simp +decide [execute_action, hh, he, ha, Eff.isStore]

/-- C7 witness at a concrete safe tool. -/
theorem safe_path_bypass_witness :
    healthToolName ∈ safeToolNames ∧
    call_tool probeEnv [] healthToolName [] =
      (.ok (execute_action probeEnv healthToolName []).1, [],
       (execute_action probeEnv healthToolName []).2) :=
  ⟨by decide, (safe_path_bypass probeEnv [] healthToolName [] (by decide)).1⟩

/-- C9 (amended) — `list_pending_actions` enumerates every key under
the namespace and reads each one; when every stored value
deserializes it returns all entries, but a value that fails to
deserialize (or a key that vanishes before its read) aborts the call
with an uncaught exception instead of being skipped. -/
theorem list_pending_strict (env : Env) (st : Store) (args : Args) :
    (storeKeysB st approvalKeyBase = [] →
       call_tool env st listPendingToolName args =
         (.ok [noPendingText], st, [.keys (approvalKeyBase ++ ['*'])])) ∧
    (∀ entries, storeKeysB st approvalKeyBase ≠ [] →
       buildPending st [] (storeKeysB st approvalKeyBase) = .ok entries →
       call_tool env st listPendingToolName args =
         (.ok [renderPending entries], st,
          .keys (approvalKeyBase ++ ['*']) :: (storeKeysB st approvalKeyBase).map Eff.get)) ∧
    (∀ e, storeKeysB st approvalKeyBase ≠ [] →
       buildPending st [] (storeKeysB st approvalKeyBase) = .error e →
       call_tool env st listPendingToolName args =
         (.error e, st,
          .keys (approvalKeyBase ++ ['*']) :: (storeKeysB st approvalKeyBase).map Eff.get)) := by
  refine ⟨fun h0 => ?_, fun entries hne hok => ?_, fun e hne herr => ?_⟩
  · simp +decide [call_tool, DANGEROUS_TOOLS, h0]
  · simp +decide [call_tool, DANGEROUS_TOOLS, hne, hok]
  · simp +decide [call_tool, DANGEROUS_TOOLS, hne, herr]

/-- C9 counterexample — with one valid and one undeserializable entry
under the namespace, the call raises (an error result) instead of
returning the remaining valid entry. -/
theorem list_pending_fatal_counterexample :
    (call_tool probeEnv c9Store listPendingToolName []).1 =
      .error ("JSONDecodeError in json.loads".toList) := by decide

/-- C9 witness for the amended statement: the all-valid store produces
the full entry list. -/
theorem list_pending_strict_witness :
    buildPending c9GoodStore [] (storeKeysB c9GoodStore approvalKeyBase) = .ok c9Entries ∧
    call_tool probeEnv c9GoodStore listPendingToolName [] =
      (.ok [renderPending c9Entries], c9GoodStore,
       .keys (approvalKeyBase ++ ['*']) :: (storeKeysB c9GoodStore approvalKeyBase).map Eff.get) :=
  ⟨by decide,
   (list_pending_strict probeEnv c9GoodStore []).2.1 c9Entries (by decide) (by decide)⟩

/-- C10 — a ban submission with no `ip` key at all does not crash:
`arguments.get` yields `None`, `validate_ip` is total on it and
returns false (the constructor stringifies it to `"None"`, which
parses as no IP literal), so the call returns the validation error and
touches nothing. -/
theorem missing_ip_safe (env : Env) (st : Store) (args : Args)
    (h : findIp args = none) :
    ipArg args = Prim.pnull ∧ validate_ip Prim.pnull = false ∧
    call_tool env st banToolName args = (.ok [valErrText Prim.pnull], st, []) := by
  have h' := h
  simp only [findIp] at h'
  have hd : ipArg args = Prim.pnull := by simp only [ipArg, dictGet, h']
  have hv : validate_ip (ipArg args) = false := by rw [hd]; decide
  have hc := ban_validation_fail env st args hv
  rw [hd] at hc
  exact ⟨hd, by decide, hc⟩

/-- C10 witness. -/
theorem missing_ip_safe_witness :
    findIp noIpArgs = none ∧
    call_tool probeEnv [] banToolName noIpArgs = (.ok [valErrText Prim.pnull], [], []) :=
  ⟨by decide, (missing_ip_safe probeEnv [] noIpArgs (by decide)).2.2⟩

/-! ## Round-trip of the serialization (towards C8) -/

/-- Stripping a literal that is present succeeds and leaves the rest. -/
theorem stripPre_append (p rest : List Char) : stripPre p (p ++ rest) = some rest := by
  induction p with
  | nil => rfl
  | cons c cs ih => simp [stripPre, ih]

/-- The code point of a character is a valid scalar value: below the
surrogate block or above it and below `0x110000`. -/
theorem charCode_spec (c : Char) :
    c.toNat < 55296 ∨ (57343 < c.toNat ∧ c.toNat < 1114112) := by
  have he : c.toNat = c.val.toNat := rfl
  rcases c.valid with h | h
  · left; omega
  · right; omega

/-- A hex digit character evaluates back to its value. -/
theorem hexVal_hexDigCh (d : Nat) (h : d < 16) : hexVal (hexDigCh d) = some d := by
  interval_cases d <;> decide

/-- Four rendered hex digits evaluate back to the rendered value. -/
theorem hex4Val_eval (n : Nat) (h : n < 65536) :
    hex4Val (hexDigCh (n / 4096 % 16)) (hexDigCh (n / 256 % 16))
      (hexDigCh (n / 16 % 16)) (hexDigCh (n % 16)) = some n := by
  have e1 := hexVal_hexDigCh (n / 4096 % 16) (by omega)
  have e2 := hexVal_hexDigCh (n / 256 % 16) (by omega)
  have e3 := hexVal_hexDigCh (n / 16 % 16) (by omega)
  have e4 := hexVal_hexDigCh (n % 16) (by omega)
  have d1 : n / 16 / 16 = n / 256 := by rw [Nat.div_div_eq_div_mul]
  have d2 : n / 256 / 16 = n / 4096 := by rw [Nat.div_div_eq_div_mul]
  simp only [hex4Val, e1, e2, e3, e4, Option.some.injEq]
  omega

/-- A backslash followed by a decodable escape parses as the decoded
character consed onto the parse of the remainder. -/
theorem pscF_esc (fuel : Nat) (l rest : List Char) (ch : Char)
    (h : escDecode l = some (ch, rest)) :
    parseStrContentF (fuel + 1) (bs :: l) =
      (fun pr => (ch :: pr.1, pr.2)) <$> parseStrContentF fuel rest := by
  simp +decide [parseStrContentF, h]

/-- An unescaped character parses as itself consed onto the parse of
the remainder. -/
theorem pscF_lit (fuel : Nat) (c : Char) (tail : List Char) (h1 : ¬ c = qm)
    (h2 : ¬ c = bs) :
    parseStrContentF (fuel + 1) (c :: tail) =
      (fun pr => (c :: pr.1, pr.2)) <$> parseStrContentF fuel tail := by
  simp [parseStrContentF, h1, h2]

/-- A `\uXXXX` escape outside the surrogate blocks decodes to its code
point. -/
theorem escDecode_u (a b c2 d : Char) (n : Nat) (rest : List Char)
    (hv : hex4Val a b c2 d = some n)
    (hs1 : ¬ (55296 ≤ n ∧ n < 56320)) (hs2 : ¬ (56320 ≤ n ∧ n < 57344)) :
    escDecode ('u' :: a :: b :: c2 :: d :: rest) = some (Char.ofNat n, rest) := by
  simp +decide [escDecode, hv, hs1, hs2]

/-- A high-low surrogate escape pair decodes to the combined
supplementary code point. -/
theorem escDecode_u_pair (a b c2 d e1 e2 e3 e4 : Char) (n m : Nat) (rest : List Char)
    (hvn : hex4Val a b c2 d = some n) (hvm : hex4Val e1 e2 e3 e4 = some m)
    (hn : 55296 ≤ n ∧ n < 56320) (hm : 56320 ≤ m ∧ m < 57344) :
    escDecode ('u' :: a :: b :: c2 :: d :: bs :: 'u' :: e1 :: e2 :: e3 :: e4 :: rest) =
      some (Char.ofNat (65536 + (n - 55296) * 1024 + (m - 56320)), rest) := by
  simp +decide [escDecode, hvn, hvm, hn, hm]

/-- The rendered `\uXXXX` escape of a basic-plane code point decodes
back to it. -/
theorem escDecode_bmp (n : Nat) (tail : List Char) (hb : n < 65536)
    (hs1 : ¬ (55296 ≤ n ∧ n < 56320)) (hs2 : ¬ (56320 ≤ n ∧ n < 57344)) :
    escDecode ('u' :: (hex4 n ++ tail)) = some (Char.ofNat n, tail) := by
  simpa [hex4] using
    escDecode_u (hexDigCh (n / 4096 % 16)) (hexDigCh (n / 256 % 16))
      (hexDigCh (n / 16 % 16)) (hexDigCh (n % 16)) n tail (hex4Val_eval n hb) hs1 hs2

/-- The rendered surrogate-pair escape of a supplementary code point
decodes back to it. -/
theorem escDecode_astral (n : Nat) (tail : List Char) (h1 : 65536 ≤ n)
    (h2 : n < 1114112) :
    escDecode ('u' :: (hex4 (55296 + (n - 65536) / 1024) ++
        bs :: 'u' :: (hex4 (56320 + (n - 65536) % 1024) ++ tail))) =
      some (Char.ofNat n, tail) := by
  have hhiB : 55296 + (n - 65536) / 1024 < 65536 := by omega
  have hloB : 56320 + (n - 65536) % 1024 < 65536 := by omega
  have hn : 55296 ≤ 55296 + (n - 65536) / 1024 ∧ 55296 + (n - 65536) / 1024 < 56320 := by
    omega
  have hm : 56320 ≤ 56320 + (n - 65536) % 1024 ∧ 56320 + (n - 65536) % 1024 < 57344 := by
    omega
  have base := escDecode_u_pair
    (hexDigCh ((55296 + (n - 65536) / 1024) / 4096 % 16))
    (hexDigCh ((55296 + (n - 65536) / 1024) / 256 % 16))
    (hexDigCh ((55296 + (n - 65536) / 1024) / 16 % 16))
    (hexDigCh ((55296 + (n - 65536) / 1024) % 16))
    (hexDigCh ((56320 + (n - 65536) % 1024) / 4096 % 16))
    (hexDigCh ((56320 + (n - 65536) % 1024) / 256 % 16))
    (hexDigCh ((56320 + (n - 65536) % 1024) / 16 % 16))
    (hexDigCh ((56320 + (n - 65536) % 1024) % 16))
    (55296 + (n - 65536) / 1024) (56320 + (n - 65536) % 1024) tail
    (hex4Val_eval _ hhiB) (hex4Val_eval _ hloB) hn hm
  have harg : 65536 + (55296 + (n - 65536) / 1024 - 55296) * 1024 +
      (56320 + (n - 65536) % 1024 - 56320) = n := by omega
  rw [harg] at base
  simpa [hex4] using base

/-- Parsing inverts the escaping of one character. -/
theorem pscF_encodeChar (c : Char) (fuel : Nat) (tail : List Char) :
    parseStrContentF (fuel + 1) (encodeChar c ++ tail) =
      (fun pr => (c :: pr.1, pr.2)) <$> parseStrContentF fuel tail := by
  by_cases h1 : c = qm
  · rw [h1, show encodeChar qm = [bs, qm] by decide]
    exact pscF_esc fuel (qm :: tail) tail qm (by simp +decide [escDecode])
  by_cases h2 : c = bs
  · rw [h2, show encodeChar bs = [bs, bs] by decide]
    exact pscF_esc fuel (bs :: tail) tail bs (by simp +decide [escDecode])
  by_cases h3 : c = Char.ofNat 8
  · rw [h3, show encodeChar (Char.ofNat 8) = [bs, 'b'] by decide]
    exact pscF_esc fuel ('b' :: tail) tail (Char.ofNat 8) (by simp +decide [escDecode])
  by_cases h4 : c = Char.ofNat 9
  · rw [h4, show encodeChar (Char.ofNat 9) = [bs, 't'] by decide]
    exact pscF_esc fuel ('t' :: tail) tail (Char.ofNat 9) (by simp +decide [escDecode])
  by_cases h5 : c = Char.ofNat 10
  · rw [h5, show encodeChar (Char.ofNat 10) = [bs, 'n'] by decide]
    exact pscF_esc fuel ('n' :: tail) tail (Char.ofNat 10) (by simp +decide [escDecode])
  by_cases h6 : c = Char.ofNat 12
  · rw [h6, show encodeChar (Char.ofNat 12) = [bs, 'f'] by decide]
    exact pscF_esc fuel ('f' :: tail) tail (Char.ofNat 12) (by simp +decide [escDecode])
  by_cases h7 : c = Char.ofNat 13
  · rw [h7, show encodeChar (Char.ofNat 13) = [bs, 'r'] by decide]
    exact pscF_esc fuel ('r' :: tail) tail (Char.ofNat 13) (by simp +decide [escDecode])
  by_cases h8 : c.toNat < 32 ∨ 126 < c.toNat
  case pos =>
    have henc : encodeChar c = uEscape c.toNat := by
      simp [encodeChar, h1, h2, h3, h4, h5, h6, h7, h8]
    rw [henc]
    rcases charCode_spec c with hcs | hcs
    · have hb : c.toNat < 65536 := by omega
      have hu : uEscape c.toNat = bs :: 'u' :: hex4 c.toNat := by simp [uEscape, hb]
      rw [hu]
      have hd := escDecode_bmp c.toNat tail hb (by omega) (by omega)
      rw [Char.ofNat_toNat] at hd
      exact pscF_esc fuel _ tail c hd
    · obtain ⟨hlo, hhi⟩ := hcs
      by_cases hb : c.toNat < 65536
      · have hu : uEscape c.toNat = bs :: 'u' :: hex4 c.toNat := by simp [uEscape, hb]
        rw [hu]
        have hd := escDecode_bmp c.toNat tail hb (by omega) (by omega)
        rw [Char.ofNat_toNat] at hd
        exact pscF_esc fuel _ tail c hd
      · have hu : uEscape c.toNat = bs :: 'u' :: hex4 (55296 + (c.toNat - 65536) / 1024) ++
            (bs :: 'u' :: hex4 (56320 + (c.toNat - 65536) % 1024)) := by
          simp [uEscape, hb]
        rw [hu]
        have hd := escDecode_astral c.toNat tail (by omega) (by omega)
        rw [Char.ofNat_toNat] at hd
        exact pscF_esc fuel _ tail c hd
  case neg =>
    have henc : encodeChar c = [c] := by
      simp [encodeChar, h1, h2, h3, h4, h5, h6, h7, h8]
    rw [henc]
    exact pscF_lit fuel c tail h1 h2



/-- Parsing inverts the escaping of a whole string body, given enough
fuel. -/
theorem pscF_encodeStrContent (s : List Char) :
    ∀ (fuel : Nat) (rest : List Char), s.length < fuel →
      parseStrContentF fuel (encodeStrContent s ++ qm :: rest) = some (s, rest) := by
  induction s with
  | nil =>
    intro fuel rest h
    cases fuel with
    | zero => omega
    | succ f => simp +decide [encodeStrContent, parseStrContentF]
  | cons c cs ih =>
    intro fuel rest h
    cases fuel with
    | zero => omega
    | succ f =>
      have hstep : encodeStrContent (c :: cs) = encodeChar c ++ encodeStrContent cs := by
        simp [encodeStrContent]
      rw [hstep, List.append_assoc, pscF_encodeChar c f (encodeStrContent cs ++ qm :: rest),
        ih f rest (by simp at h; omega)]
      rfl

/-- Every character escapes to a nonempty sequence. -/
theorem encodeChar_length_pos (c : Char) : 0 < (encodeChar c).length := by
  unfold encodeChar uEscape
  split_ifs <;> simp

/-- Escaping does not shorten a string. -/
theorem len_encodeStrContent (s : List Char) : s.length ≤ (encodeStrContent s).length := by
  induction s with
  | nil => simp [encodeStrContent]
  | cons c cs ih =>
    have hstep : encodeStrContent (c :: cs) = encodeChar c ++ encodeStrContent cs := by
      simp [encodeStrContent]
    have := encodeChar_length_pos c
    simp [hstep]
    omega

/-- Parsing inverts the escaping of a whole string body. -/
theorem parseStrContent_encode (s rest : List Char) :
    parseStrContent (encodeStrContent s ++ qm :: rest) = some (s, rest) := by
  unfold parseStrContent
  refine pscF_encodeStrContent s _ rest ?_
  have := len_encodeStrContent s
  simp [List.length_append]
  omega

/-- Parsing inverts the rendering of a JSON string literal. -/
theorem parseStr_encodeStr (s rest : List Char) :
    parseStr (encodeStr s ++ rest) = some (s, rest) := by
  have hshape : encodeStr s ++ rest = qm :: (encodeStrContent s ++ qm :: rest) := by
    simp [encodeStr]
  rw [hshape]
  simpa [parseStr] using parseStrContent_encode s rest



/-- The fuel of `natDecAux` is irrelevant once it exceeds the input. -/
theorem natDecAux_fuel_inv :
    ∀ (f1 : Nat), ∀ (f2 n : Nat), n < f1 → n < f2 → natDecAux f1 n = natDecAux f2 n := by
  intro f1
  induction f1 with
  | zero => intro f2 n h1 _; omega
  | succ f ih =>
    intro f2 n h1 h2
    cases f2 with
    | zero => omega
    | succ g =>
      simp only [natDecAux]
      by_cases h : n < 10
      · simp [h]
      · simp only [h, if_false]
        rw [ih g (n / 10) (by omega) (by omega)]

/-- Unfolding equation of the decimal rendering. -/
theorem natDec_eq (n : Nat) :
    natDec n = if n < 10 then [digCh n] else natDec (n / 10) ++ [digCh (n % 10)] := by
  by_cases h : n < 10
  · simp [natDec, natDecAux, h]
  · rw [if_neg h]
    have h2 : natDec n = if n < 10 then [digCh n] else natDecAux n (n / 10) ++ [digCh (n % 10)] :=
      rfl
    rw [h2, if_neg h]
    congr 1
    exact natDecAux_fuel_inv n (n / 10 + 1) (n / 10) (by omega) (by omega)

/-- Code point of a digit character. -/
theorem digCh_toNat (d : Nat) (h : d < 10) : (digCh d).toNat = 48 + d := by
  interval_cases d <;> decide

/-- A digit character passes the digit test. -/
theorem isDigC_digCh (d : Nat) (h : d < 10) : isDigC (digCh d) = true := by
  interval_cases d <;> decide

/-- Every character of a decimal rendering is a digit. -/
theorem natDec_digits (n : Nat) : ∀ c ∈ natDec n, isDigC c = true := by
  induction n using Nat.strong_induction_on with
  | _ n ih =>
    intro c hc
    rw [natDec_eq] at hc
    by_cases h : n < 10
    · simp [h] at hc
      rw [hc]
      exact isDigC_digCh n h
    · simp [h] at hc
      rcases hc with hc | hc
      · exact ih (n / 10) (by omega) c hc
      · rw [hc]
        exact isDigC_digCh (n % 10) (by omega)

/-- A decimal rendering is never empty. -/
theorem natDec_ne_nil (n : Nat) : natDec n ≠ [] := by
  rw [natDec_eq]
  by_cases h : n < 10 <;> simp [h]

/-- The greedy digit run consumes exactly a digit block followed by a
non-digit boundary. -/
theorem parseDigitsAcc_spec (ds : List Char) :
    ∀ (rest : List Char) (acc : Nat), (∀ c ∈ ds, isDigC c = true) → headNotDig rest = true →
      parseDigitsAcc acc (ds ++ rest) =
        (ds.foldl (fun a c => a * 10 + (c.toNat - 48)) acc, rest) := by
  induction ds with
  | nil =>
    intro rest acc _ hr
    cases rest with
    | nil => simp [parseDigitsAcc]
    | cons r rs =>
      have hrd : isDigC r = false := by simpa [headNotDig] using hr
      simp [parseDigitsAcc, hrd]
  | cons c cs ih =>
    intro rest acc hds hr
    have hc : isDigC c = true := hds c (List.mem_cons_self c cs)
    simp only [List.cons_append, parseDigitsAcc, hc, if_true, List.foldl_cons]
    exact ih rest _ (fun x hx => hds x (List.mem_cons_of_mem c hx)) hr

/-- Folding the digits of a decimal rendering recovers the number. -/
theorem digFold_natDec (n : Nat) :
    ∀ acc : Nat, (natDec n).foldl (fun a c => a * 10 + (c.toNat - 48)) acc =
      acc * 10 ^ (natDec n).length + n := by
  induction n using Nat.strong_induction_on with
  | _ n ih =>
    intro acc
    rw [natDec_eq]
    by_cases h : n < 10
    · simp [h, digCh_toNat n h]
    · rw [if_neg h, List.foldl_append, ih (n / 10) (by omega) acc]
      show (acc * 10 ^ (natDec (n / 10)).length + n / 10) * 10 + ((digCh (n % 10)).toNat - 48) =
        acc * 10 ^ (natDec (n / 10) ++ [digCh (n % 10)]).length + n
      rw [digCh_toNat (n % 10) (by omega)]
      have hsub : 48 + n % 10 - 48 = n % 10 := by omega
      have hlen : (natDec (n / 10) ++ [digCh (n % 10)]).length = (natDec (n / 10)).length + 1 := by
        simp
      rw [hsub, hlen]
      have hmod : n / 10 * 10 + n % 10 = n := by omega
      calc (acc * 10 ^ (natDec (n / 10)).length + n / 10) * 10 + n % 10
          = acc * 10 ^ (natDec (n / 10)).length * 10 + (n / 10 * 10 + n % 10) := by ring
        _ = acc * 10 ^ (natDec (n / 10)).length * 10 + n := by rw [hmod]
        _ = acc * 10 ^ ((natDec (n / 10)).length + 1) + n := by
            rw [pow_succ]; ring
  
/-- The decimal rendering, fed to the greedy digit run after its first
character, reproduces the number. -/
theorem natDec_parse (n : Nat) (rest : List Char) (hr : headNotDig rest = true) :
    ∃ c cs, natDec n = c :: cs ∧ isDigC c = true ∧
      parseDigitsAcc (c.toNat - 48) (cs ++ rest) = (n, rest) := by
  obtain ⟨c, cs, hcs⟩ : ∃ c cs, natDec n = c :: cs := by
    cases h : natDec n with
    | nil => exact absurd h (natDec_ne_nil n)
    | cons c cs => exact ⟨c, cs, rfl⟩
  refine ⟨c, cs, hcs, natDec_digits n c (by rw [hcs]; exact List.mem_cons_self c cs), ?_⟩
  rw [parseDigitsAcc_spec cs rest (c.toNat - 48)
    (fun x hx => natDec_digits n x (by rw [hcs]; exact List.mem_cons_of_mem c hx)) hr]
  have h0 := digFold_natDec n 0
  rw [hcs] at h0
  simp only [List.foldl_cons, List.length_cons, Nat.zero_mul, Nat.zero_add] at h0
  rw [h0]


/-- A digit character differs from any character outside the digit
range. -/
theorem isDigC_ne_of_code (c d : Char) (hc : isDigC c = true)
    (hd : ¬ (48 ≤ d.toNat ∧ d.toNat ≤ 57)) : ¬ c = d := by
  intro he
  rw [he] at hc
  simp [isDigC] at hc
  exact hd hc

/-- Parsing inverts the serialization of a primitive value, provided
the following input does not begin with a digit. -/
theorem parsePrim_dumps (v : Prim) (rest : List Char) (hr : headNotDig rest = true) :
    parsePrim (dumpsPrim v ++ rest) = some (v, rest) := by
  cases v with
  | pstr s =>
    have hshape : dumpsPrim (Prim.pstr s) ++ rest =
        qm :: (encodeStrContent s ++ qm :: rest) := by
      simp [dumpsPrim, encodeStr]
    rw [hshape]
    simp +decide [parsePrim, parseStrContent_encode s rest]
  | pbool b =>
    cases b <;> simp +decide [dumpsPrim, parsePrim, stripPre]
  | pnull =>
    simp +decide [dumpsPrim, parsePrim, stripPre]
  | pint n =>
    by_cases hneg : n < 0
    · have hshape : dumpsPrim (Prim.pint n) ++ rest = '-' :: (natDec n.natAbs ++ rest) := by
        simp [dumpsPrim, intDec, hneg]
      rw [hshape]
      obtain ⟨c, cs, hcs, hdig, hacc⟩ := natDec_parse n.natAbs rest hr
      rw [hcs]
      simp only [List.cons_append]
      have hval : -((n.natAbs : Int)) = n := by omega
      simp +decide [parsePrim, hdig, hacc, hval]
      rw [abs_of_neg hneg, neg_neg]
    · have hshape : dumpsPrim (Prim.pint n) ++ rest = natDec n.toNat ++ rest := by
        simp [dumpsPrim, intDec, hneg]
      rw [hshape]
      obtain ⟨c, cs, hcs, hdig, hacc⟩ := natDec_parse n.toNat rest hr
      rw [hcs]
      simp only [List.cons_append]
      have k1 := isDigC_ne_of_code c qm hdig (by decide)
      have k2 := isDigC_ne_of_code c 't' hdig (by decide)
      have k3 := isDigC_ne_of_code c 'f' hdig (by decide)
      have k4 := isDigC_ne_of_code c 'n' hdig (by decide)
      have k5 := isDigC_ne_of_code c '-' hdig (by decide)
      have hval : ((n.toNat : Int)) = n := by omega
      simp [parsePrim, hdig, hacc, k1, k2, k3, k4, k5, hval]


/-- What follows a serialized member value (the item separator or the
closing brace) never begins with a digit. -/
theorem headNotDig_tail (fs : Args) (rest : List Char) :
    headNotDig (dumpsFieldsTail fs ++ rb :: rest) = true := by
  cases fs with
  | nil => simp +decide [dumpsFieldsTail, headNotDig, isDigC]
  | cons f fs => simp +decide [dumpsFieldsTail, headNotDig, isDigC]

/-- Parsing inverts the serialization of the member list of a nonempty
object, given fuel exceeding the number of remaining members. -/
theorem parseFields_dumps (fs : Args) :
    ∀ (fuel : Nat) (k : List Char) (v : Prim) (rest : List Char), fs.length < fuel →
      parseFields fuel (dumpsField k v ++ (dumpsFieldsTail fs ++ rb :: rest)) =
        some ((k, v) :: fs, rest) := by
  induction fs with
  | nil =>
    intro fuel k v rest hf
    cases fuel with
    | zero => omega
    | succ F =>
      have hp := parsePrim_dumps v (rb :: rest) (by simp +decide [headNotDig])
      have hshape : dumpsField k v ++ (dumpsFieldsTail [] ++ rb :: rest) =
          encodeStr k ++ (':' :: ' ' :: (dumpsPrim v ++ rb :: rest)) := by
        simp [dumpsField, dumpsFieldsTail]
      rw [hshape]
      simp only [parseFields]
      rw [parseStr_encodeStr]
      simp +decide [hp]
  | cons f fs ih =>
    intro fuel k v rest hf
    cases fuel with
    | zero => omega
    | succ F =>
      obtain ⟨k2, v2⟩ := f
      have hp := parsePrim_dumps v (dumpsFieldsTail ((k2, v2) :: fs) ++ rb :: rest)
        (headNotDig_tail ((k2, v2) :: fs) rest)
      have hshape : dumpsField k v ++ (dumpsFieldsTail ((k2, v2) :: fs) ++ rb :: rest) =
          encodeStr k ++ (':' :: ' ' ::
            (dumpsPrim v ++ (dumpsFieldsTail ((k2, v2) :: fs) ++ rb :: rest))) := by
        simp [dumpsField]
      rw [hshape]
      simp only [parseFields]
      rw [parseStr_encodeStr]
      have htail : dumpsFieldsTail ((k2, v2) :: fs) ++ rb :: rest =
          ',' :: ' ' :: (dumpsField k2 v2 ++ (dumpsFieldsTail fs ++ rb :: rest)) := by
        simp [dumpsFieldsTail]
      rw [htail] at hp
      simp +decide [htail, hp, ih F k2 v2 rest (by simp at hf; omega)]

/-- Parsing inverts the serialization of an argument dict, given fuel
exceeding its size. -/
theorem parseArgsObj_dumps (args : Args) (fuel : Nat) (rest : List Char)
    (h : args.length < fuel) :
    parseArgsObj fuel (dumpsArgs args ++ rest) = some (args, rest) := by
  cases args with
  | nil => simp +decide [dumpsArgs, parseArgsObj]
  | cons f fs =>
    obtain ⟨k, v⟩ := f
    have hshape : dumpsArgs ((k, v) :: fs) ++ rest =
        lb :: (qm :: (encodeStrContent k ++ qm :: ':' :: ' ' ::
          (dumpsPrim v ++ (dumpsFieldsTail fs ++ rb :: rest)))) := by
      simp [dumpsArgs, dumpsField, encodeStr]
    rw [hshape]
    have hback : qm :: (encodeStrContent k ++ qm :: ':' :: ' ' ::
        (dumpsPrim v ++ (dumpsFieldsTail fs ++ rb :: rest))) =
        dumpsField k v ++ (dumpsFieldsTail fs ++ rb :: rest) := by
      simp [dumpsField, encodeStr]
    simp only [parseArgsObj]
    rw [if_pos trivial, if_neg (by decide : ¬ qm = rb), hback]
    exact parseFields_dumps fs fuel k v rest (by simp at h; omega)


/-- Serializing a member list never shortens it below its length. -/
theorem len_dumpsFieldsTail (fs : Args) : fs.length ≤ (dumpsFieldsTail fs).length := by
  induction fs with
  | nil => simp [dumpsFieldsTail]
  | cons f fs ih =>
    obtain ⟨k, v⟩ := f
    simp [dumpsFieldsTail]
    omega

/-- A serialized argument dict is at least as long as its member
count. -/
theorem len_dumpsArgs (args : Args) : args.length ≤ (dumpsArgs args).length := by
  cases args with
  | nil => simp [dumpsArgs]
  | cons f fs =>
    obtain ⟨k, v⟩ := f
    have := len_dumpsFieldsTail fs
    simp [dumpsArgs]
    omega

/-- C8 — the serialization round-trips: deserializing a pending action
serialized by the submit path reproduces the record exactly, in
particular its `name` and `arguments`. -/
theorem serialization_roundtrip (a : ActionData) :
    loadsAction (dumpsAction a) = some a := by
  obtain ⟨nm, args, ts⟩ := a
  have hshape : dumpsAction ⟨nm, args, ts⟩ =
      (lb :: keyLit ("name".toList)) ++ (encodeStr nm ++
        ((',' :: ' ' :: keyLit ("arguments".toList)) ++ (dumpsArgs args ++
          ((',' :: ' ' :: keyLit ("timestamp".toList)) ++ (encodeStr ts ++ [rb]))))) := by
    simp [dumpsAction]
  have hargs := parseArgsObj_dumps args
    ((dumpsArgs args ++
      ((',' :: ' ' :: keyLit ("timestamp".toList)) ++ (encodeStr ts ++ [rb]))).length + 1)
    ((',' :: ' ' :: keyLit ("timestamp".toList)) ++ (encodeStr ts ++ [rb]))
    (by have := len_dumpsArgs args; simp [List.length_append]; omega)
  rw [hshape]
  simp only [loadsAction, stripPre_append, parseStr_encodeStr, hargs]
  simp +decide

end Nexus
